import Mathlib

/-!
Shallow embedding of the mysqlerrgen generator
(`src/cmd/mysqlerrgen/main.go` of orisano/mysqlerr).

Go strings are modelled as `List Char` (the scanner input is UTF-8 text, and
every character the code searches for or compares against is ASCII, so the
rune-level view coincides with Go's byte-level operations).  Decoded message
text is modelled as `List Nat` (a raw byte sequence), because `parseQuoted`
mixes `WriteByte` (raw bytes from octal escapes) with `WriteRune` (UTF-8
encoded code points) on a `strings.Builder`.

Fatal conditions are modelled by the `RunErr` type: the `fmt.Errorf` returns
of `run` keep the offending raw line as payload, while the two runtime panics
(indexing `errs[len(errs)-1]` with no record, and `tokens[3]` in
`parseConstantsGo`) and the one possible infinite loop (`parseLanguage`) are
separate payload-free or line-tagged constructors, since a Go panic does not
surface the offending input line the way the error returns do.
-/

deriving instance DecidableEq for Except

namespace Mysqlerr

/-- Characters of Go string literals, via `String.data`. -/
abbrev GoStr := List Char

/-- Delimiter set of `consumeWord`: the Go cutset is `" ,\t\r\n="`. -/
def isDelim (c : Char) : Bool :=
  c = ' ' || c = ',' || c = '\t' || c = '\r' || c = '\n' || c = '='

/-- Cutset of `trimDelimiters`: the Go cutset is `" ,\t="` (note: no CR/LF). -/
def isTrimCh (c : Char) : Bool :=
  c = ' ' || c = ',' || c = '\t' || c = '='

/-- Embedding of `consumeWord`: split at the first occurrence of any
delimiter in `" ,\t\r\n="`; with no delimiter present, the whole string is
the word and the remainder is empty. -/
def consumeWord : GoStr → GoStr × GoStr
  | [] => ([], [])
  | c :: cs =>
    if isDelim c then ([], c :: cs)
    else
      let p := consumeWord cs
      (c :: p.1, p.2)

/-- Embedding of `trimDelimiters`: `strings.TrimLeft(s, " ,\t=")`. -/
def trimDelimiters (s : GoStr) : GoStr := s.dropWhile isTrimCh

/-- Embedding of `strings.HasPrefix(s, p)` for a literal prefix `p`. -/
def startsWith (s : GoStr) (p : String) : Bool := List.isPrefixOf p.data s

/-- Embedding of `strings.TrimLeft(s, " \t")`, used by the
message-continuation branch of `run`. -/
def trimSpaceTab (s : GoStr) : GoStr := s.dropWhile (fun c => c = ' ' || c = '\t')

/-- Embedding of the `strings.IndexAny(line, " \t")` split in the
message-continuation branch: with an occurrence at `i` the line splits into
`line[:i]` and `line[i:]`; otherwise the whole line is the language token. -/
def splitLang : GoStr → GoStr × GoStr
  | [] => ([], [])
  | c :: cs =>
    if c = ' ' || c = '\t' then ([], c :: cs)
    else
      let p := splitLang cs
      (c :: p.1, p.2)

/-- Embedding of the `language` struct of main.go. -/
structure Language where
  longName : GoStr
  shortName : GoStr
  charset : GoStr
deriving DecidableEq, Repr

/-- Embedding of the `message` struct of main.go. -/
structure Message where
  langShortName : GoStr
  text : List Nat
deriving DecidableEq, Repr

/-- Embedding of the `mysqlError` struct of main.go. -/
structure MysqlError where
  name : GoStr
  code : Int
  sqlState : GoStr
  odbcState : GoStr
  messages : List Message
  obsolete : Bool
deriving DecidableEq, Repr

/-- Body of the `parseLanguage` loop, with explicit fuel.  One fuel unit is
one iteration of `for !(strings.HasPrefix(s, ";") || s == "")`.  Every
operation in the body returns a suffix of its argument, so an iteration
either strictly shortens `s` (and `length s + 1` fuel units reach the exit
condition) or leaves `s` unchanged, in which case the Go loop never
terminates and the fueled model answers `none` for every fuel. -/
def parseLanguageLoop : Nat → GoStr → List Language → Option (List Language)
  | 0, _, _ => none
  | Nat.succ fuel, s, acc =>
    if startsWith s ";" || s = [] then some acc
    else
      let p1 := consumeWord s
      let x1 := trimDelimiters p1.2
      let p2 := consumeWord x1
      let x2 := trimDelimiters p2.2
      let p3 := consumeWord x2
      parseLanguageLoop fuel (trimDelimiters p3.2)
        (acc ++ [{ longName := p1.1, shortName := p2.1, charset := p3.1 }])

/-- Embedding of `parseLanguage`: skip the keyword word, trim, then run the
triple-collecting loop.  Answer `none` when the Go loop diverges. -/
def parseLanguage (l : GoStr) : Option (List Language) :=
  let s := trimDelimiters (consumeWord l).2
  parseLanguageLoop (s.length + 1) s []

/-- UTF-8 encoding of one code point, the effect of
`strings.Builder.WriteRune` on the byte stream. -/
def utf8Bytes (c : Char) : List Nat :=
  let n := c.toNat
  if n < 128 then [n]
  else if n < 2048 then [192 + n / 64, 128 + n % 64]
  else if n < 65536 then [224 + n / 4096, 128 + n / 64 % 64, 128 + n % 64]
  else [240 + n / 262144, 128 + n / 4096 % 64, 128 + n / 64 % 64, 128 + n % 64]

/-- Inner octal loop of `parseQuoted`
(`for j := 0; j < 3 && i < len(r); i, j = i+1, j+1`).  First argument is
`3 - j`; the result is the accumulator `n`, the remaining runes at the final
`i`, and whether the loop exited through `break` (after its `i--`), which
determines whether the enclosing loop's `i++` skips one further rune.  The
break test is the source's literal `r[i] < '0' && '7' < r[i]`. -/
def octalLoop : Nat → Int → GoStr → Int × GoStr × Bool
  | 0, n, rest => (n, rest, false)
  | Nat.succ _, n, [] => (n, [], false)
  | Nat.succ k, n, c :: rest =>
    if c < '0' ∧ '7' < c then (n, c :: rest, true)
    else octalLoop k (n * 8 + ((c.toNat : Int) - 48)) rest

/-- Outer loop of `parseQuoted` over the rune slice, with fuel.  Every step
consumes at least the current rune, so `length + 1` fuel units always
suffice; `none` is the `"unexpected EOL"` error reached when the runes are
exhausted without an unescaped closing quote. -/
def parseQuotedLoop : Nat → GoStr → List Nat → Option (List Nat)
  | 0, _, _ => none
  | Nat.succ _, [], _ => none
  | Nat.succ fuel, c :: rest, acc =>
    if c = '"' then some acc
    else
      match c, rest with
      | '\\', d :: rest2 =>
        if d = 'n' then parseQuotedLoop fuel rest2 (acc ++ [10])
        else if d = '0' ∨ d = '1' ∨ d = '2' ∨ d = '3' ∨ d = '4' ∨ d = '5' ∨
                d = '6' ∨ d = '7' then
          let r := octalLoop 3 0 (d :: rest2)
          parseQuotedLoop fuel (if r.2.2 then r.2.1 else r.2.1.drop 1)
            (acc ++ [((r.1.emod 256).toNat)])
        else parseQuotedLoop fuel rest2 (acc ++ utf8Bytes d)
      | _, _ => parseQuotedLoop fuel rest (acc ++ utf8Bytes c)

/-- Embedding of `parseQuoted` on the text following the opening quote:
`some` is the decoded byte sequence, `none` the `"unexpected EOL"` error. -/
def parseQuoted (s : GoStr) : Option (List Nat) :=
  parseQuotedLoop (s.length + 1) s []

/-- Fatal outcomes of `run`.  The first four mirror the `fmt.Errorf` returns
and carry the offending raw line exactly as the format verbs `%q` do:
`invalidFormat` is `"invalid format: %q"`, `unexpectedEOL` is
`"unexpected EOL: %q"`, `parseQuote` is `"parse quote(%q): unexpected EOL"`
(the wrapped `parseQuoted` error), `unknownFormat` is `"unknown format: %q"`.
`panicNoRecord` is the runtime index-out-of-range panic at
`errs[len(errs)-1]` for a continuation line with no record, and
`panicConstTokens` the runtime index-out-of-range panic at `tokens[3]` in
`parseConstantsGo`; neither panic surfaces an input line.  `hang` marks a
`language` line on which `parseLanguage` never returns. -/
inductive RunErr where
  | invalidFormat (line : GoStr)
  | unexpectedEOL (line : GoStr)
  | parseQuote (line : GoStr)
  | unknownFormat (line : GoStr)
  | panicNoRecord
  | panicConstTokens
  | hang (line : GoStr)
deriving DecidableEq, Repr

/-- Mutable scanner state of `run`'s line loop. -/
structure ScanState where
  defaultLanguage : GoStr
  errorCodeOffset : Int
  rCount : Int
  languages : List Language
  errs : List MysqlError
deriving DecidableEq, Repr

/-- Initial scanner state: `defaultLanguage := "eng"`,
`errorCodeOffset := 1000`, `rCount := 0`, no languages, no records. -/
def initState : ScanState :=
  { defaultLanguage := "eng".data, errorCodeOffset := 1000, rCount := 0,
    languages := [], errs := [] }

/-- Characters accepted by `strconv.Atoi` after the optional sign. -/
def isDigitCh (c : Char) : Bool := '0' ≤ c && c ≤ '9'

/-- Numeric value of a digit string (the `Atoi` accumulation loop). -/
def decVal (s : GoStr) : Nat := s.foldl (fun a c => a * 10 + (c.toNat - 48)) 0

/-- Embedding of `strconv.Atoi` as used in the source, where the error
result is discarded (`errorCodeOffset, _ = strconv.Atoi(...)`).  Go's `int`
is 64 bits on this tool's platforms, so: a syntactically invalid token (no
digits, or any non-digit character) yields the zero value that accompanies
`ErrSyntax`; a well-formed integer that does not fit in a signed 64-bit
`int` yields the saturated value that accompanies `ErrRange` —
`1<<63 - 1` for a positive token, `-(1<<63)` for a negative one — which the
caller keeps because the error is discarded. -/
def atoiOrZero (s : GoStr) : Int :=
  match s with
  | [] => 0
  | c :: ds =>
    if c = '-' then
      (if ds ≠ [] ∧ ds.all isDigitCh then
        (if (decVal ds : Int) > 9223372036854775808 then -9223372036854775808
         else -(decVal ds : Int))
       else 0)
    else if c = '+' then
      (if ds ≠ [] ∧ ds.all isDigitCh then
        (if (decVal ds : Int) > 9223372036854775807 then 9223372036854775807
         else (decVal ds : Int))
       else 0)
    else
      (if (c :: ds).all isDigitCh then
        (if (decVal (c :: ds) : Int) > 9223372036854775807 then 9223372036854775807
         else (decVal (c :: ds) : Int))
       else 0)

/-- Two's-complement wrap of Go's 64-bit `int` addition: reduce modulo
`2^64` into `[-2^63, 2^63)`.  Applied at the two places the source adds to
an `int` that the model keeps as an unbounded integer (`errorCode :=
errorCodeOffset + rCount` and `rCount++`).  The `n*8 + int(r[i]-'0')` inside
`parseQuoted` runs at most three iterations on values below `2^21`, so it
cannot leave the 64-bit range and needs no wrap. -/
def wrap64 (v : Int) : Int :=
  (v + 9223372036854775808) % 18446744073709551616 - 9223372036854775808

/-- Remainder of a continuation line after stripping leading blanks, the
language token, and the blanks that follow it (lines 88-95 of main.go). -/
def afterLang (l : GoStr) : GoStr :=
  trimSpaceTab (splitLang (trimSpaceTab l)).2

/-- Continuation-line handling up to the decoded message (lines 88-107 of
main.go, the part before `errs[len(errs)-1]` is touched): strip blanks,
take the language token, demand an opening double quote, decode the quoted
literal.  A missing opening quote is the `"unexpected EOL: %q"` error; a
literal that reaches end of line is the wrapped `"parse quote(%q)"` error.
Both carry the raw line. -/
def parseContMsg (l : GoStr) : Except RunErr Message :=
  let lang := (splitLang (trimSpaceTab l)).1
  let rest := afterLang l
  if startsWith rest "\"" then
    match parseQuoted (rest.drop 1) with
    | some text => Except.ok { langShortName := lang, text := text }
    | none => Except.error (RunErr.parseQuote l)
  else Except.error (RunErr.unexpectedEOL l)

/-- Replacement of `curErr := &errs[len(errs)-1]` followed by
`curErr.messages = append(curErr.messages, m)`: append `m` to the messages
of the last record.  Only meaningful for a nonempty list; the caller guards
the empty case (which is the Go panic). -/
def updateLast (m : Message) : List MysqlError → List MysqlError
  | [] => []
  | [e] => [{ e with messages := e.messages ++ [m] }]
  | e :: rest => e :: updateLast m rest

/-- Header-line test, verbatim the condition of the error-header case of the
switch in `run`. -/
def isHeaderLine (l : GoStr) : Bool :=
  startsWith l "ER_" || startsWith l "WARN_" ||
  startsWith l "OBSOLETE_ER_" || startsWith l "OBSOLETE_WARN_"

/-- One iteration of the scanner loop of `run`: the six-way (plus
comment/blank, reserved marker, unknown) switch on the current line, in
source order. -/
def processLine (s : ScanState) (line : GoStr) : Except RunErr ScanState :=
  if startsWith line "language" then
    match parseLanguage line with
    | some langs => Except.ok { s with languages := langs }
    | none => Except.error (RunErr.hang line)
  else if startsWith line "start-error-number" then
    let l1 := trimDelimiters (consumeWord line).2
    let p := consumeWord l1
    if p.2 ≠ [] then Except.error (RunErr.invalidFormat line)
    else Except.ok { s with errorCodeOffset := atoiOrZero p.1, rCount := 0 }
  else if startsWith line "default-language" then
    let l1 := trimDelimiters (consumeWord line).2
    let p := consumeWord l1
    if p.2 ≠ [] then Except.error (RunErr.invalidFormat line)
    else Except.ok { s with defaultLanguage := p.1 }
  else if startsWith line "\t" || startsWith line " " then
    match parseContMsg line with
    | Except.error e => Except.error e
    | Except.ok m =>
      if s.errs = [] then Except.error RunErr.panicNoRecord
      else Except.ok { s with errs := updateLast m s.errs }
  else if isHeaderLine line then
    let p1 := consumeWord line
    let p2 := consumeWord (trimDelimiters p1.2)
    let p3 := consumeWord (trimDelimiters p2.2)
    Except.ok { s with
      rCount := wrap64 (s.rCount + 1),
      errs := s.errs ++ [{ name := p1.1, code := wrap64 (s.errorCodeOffset + s.rCount),
                           sqlState := p2.1, odbcState := p3.1,
                           messages := [], obsolete := startsWith p1.1 "OBSOLETE_" }] }
  else if startsWith line "#" || line = [] then Except.ok s
  else if startsWith line "reserved-error-section" then Except.ok s
  else Except.error (RunErr.unknownFormat line)

/-- The scanner loop of `run` over all input lines. -/
def processLines (s : ScanState) : List GoStr → Except RunErr ScanState
  | [] => Except.ok s
  | l :: ls =>
    match processLine s l with
    | Except.error e => Except.error e
    | Except.ok t => processLines t ls

/-- Embedding of the `constants` struct: `byName` is the `map[string]int`
(association list read through `lookupName`, updated in place by
`upsertName`), `byCode` the `map[int][]string` whose per-code slices grow by
`append`. -/
structure Constants where
  byName : List (GoStr × Int)
  byCode : List (Int × List GoStr)
deriving DecidableEq, Repr

/-- The zero value `&constants{}` used when no prior artifact exists. -/
def emptyConstants : Constants := { byName := [], byCode := [] }

/-- Map write `c.byName[name] = code` on the association list. -/
def upsertName (name : GoStr) (code : Int) : List (GoStr × Int) → List (GoStr × Int)
  | [] => [(name, code)]
  | (k, v) :: rest =>
    if k = name then (k, code) :: rest else (k, v) :: upsertName name code rest

/-- Map update `c.byCode[code] = append(c.byCode[code], name)` on the
association list. -/
def appendCode (code : Int) (name : GoStr) : List (Int × List GoStr) → List (Int × List GoStr)
  | [] => [(code, [name])]
  | (k, ns) :: rest =>
    if k = code then (k, ns ++ [name]) :: rest else (k, ns) :: appendCode code name rest

/-- Embedding of `(*constants).add`. -/
def Constants.add (c : Constants) (name : GoStr) (code : Int) : Constants :=
  { byName := upsertName name code c.byName, byCode := appendCode code name c.byCode }

/-- Map read `c.byCode[code]`, with the missing-key nil slice read as `[]`. -/
def Constants.codeNames (c : Constants) (code : Int) : List GoStr :=
  (c.byCode.lookup code).getD []

/-- Loop body of `(*constants).deprecates`: walk the prior names assigned to
`code`, skipping the one equal to `name`. -/
def deprecatesLoop (name : GoStr) (code : Int) : List GoStr → List MysqlError
  | [] => []
  | n :: ns =>
    if n = name then deprecatesLoop name code ns
    else { name := n, code := code, sqlState := [], odbcState := [],
           messages := [], obsolete := false } :: deprecatesLoop name code ns

/-- Embedding of `(*constants).deprecates`. -/
def Constants.deprecates (c : Constants) (name : GoStr) (code : Int) : List MysqlError :=
  deprecatesLoop name code (c.codeNames code)

/-- Embedding of `strings.Split(s, " ")` (single-character separator, empty
fields preserved). -/
def goSplit : GoStr → List GoStr
  | [] => [[]]
  | c :: cs =>
    if c = ' ' then [] :: goSplit cs
    else
      match goSplit cs with
      | t :: ts => (c :: t) :: ts
      | [] => [[c]]

/-- One line of the `parseConstantsGo` scan: lines without the `"const "`
prefix are skipped; on a `const` line, `tokens[1]` is the name and
`tokens[3]` the value (its `Atoi` error is discarded).  Fewer than four
space-separated tokens makes `tokens[3]` panic, modelled as `none`. -/
def parseConstLine (c : Constants) (line : GoStr) : Option Constants :=
  if startsWith line "const " then
    match goSplit line with
    | _ :: key :: _ :: val :: _ => some (c.add key (atoiOrZero val))
    | _ => none
  else some c

/-- The scan loop of `parseConstantsGo`, threading the `constants` being
built; `none` propagates the `tokens[3]` panic. -/
def parseConstantsLoop (c : Constants) : List GoStr → Option Constants
  | [] => some c
  | l :: ls =>
    match parseConstLine c l with
    | none => none
    | some c2 => parseConstantsLoop c2 ls

/-- Embedding of `parseConstantsGo` on the lines of the prior artifact. -/
def parseConstantsGo (lines : List GoStr) : Option Constants :=
  parseConstantsLoop emptyConstants lines

/-- Digit expansion loop for decimal printing, most significant digit
first; the fuel argument (any value above the digit count, `n + 1` is always
enough) keeps the recursion structural. -/
def natToDecAux : Nat → Nat → GoStr
  | 0, _ => []
  | Nat.succ fuel, n =>
    if n = 0 then []
    else natToDecAux fuel (n / 10) ++ [Nat.digitChar (n % 10)]

/-- Decimal digits of a natural number, most significant first, as printed
by `fmt.Fprintln` (`%v` on an int). -/
def natToDec (n : Nat) : GoStr :=
  if n = 0 then ['0'] else natToDecAux (n + 1) n

/-- Go's decimal rendering of an `int`. -/
def intToDec (k : Int) : GoStr :=
  if k < 0 then '-' :: natToDec k.natAbs else natToDec k.toNat

/-- One generated declaration line, `fmt.Fprintln(f, "const", name, "=", code)`. -/
def constLine (name : GoStr) (code : Int) : GoStr :=
  "const ".data ++ name ++ " = ".data ++ intToDec code

/-- The fixed deprecation marker line. -/
def deprecatedLine : GoStr := "// Deprecated: should not be used".data

/-- The seven lines of the license raw string printed by `writeLicense`. -/
def licenseLines : List GoStr :=
  ["// Copyright 2021-2023 Nao Yonashiro ".data,
   "// ".data,
   "// Permission is hereby granted, free of charge, to any person obtaining a copy of this software and associated documentation files (the “Software”), to deal in the Software without restriction, including without limitation the rights to use, copy, modify, merge, publish, distribute, sublicense, and/or sell copies of the Software, and to permit persons to whom the Software is furnished to do so, subject to the following conditions:".data,
   "// ".data,
   "// The above copyright notice and this permission notice shall be included in all copies or substantial portions of the Software.".data,
   "//".data,
   "// THE SOFTWARE IS PROVIDED “AS IS”, WITHOUT WARRANTY OF ANY KIND, EXPRESS OR IMPLIED, INCLUDING BUT NOT LIMITED TO THE WARRANTIES OF MERCHANTABILITY, FITNESS FOR A PARTICULAR PURPOSE AND NONINFRINGEMENT. IN NO EVENT SHALL THE AUTHORS OR COPYRIGHT HOLDERS BE LIABLE FOR ANY CLAIM, DAMAGES OR OTHER LIABILITY, WHETHER IN AN ACTION OF CONTRACT, TORT OR OTHERWISE, ARISING FROM, OUT OF OR IN CONNECTION WITH THE SOFTWARE OR THE USE OR OTHER DEALINGS IN THE SOFTWARE.".data]

/-- Fixed prologue of the artifact: generation marker, license, package line. -/
def headerLines (pkg : GoStr) : List GoStr :=
  "// Code generated mysqlerrgen DO NOT EDIT.".data :: licenseLines ++
    ["package ".data ++ pkg]

/-- The generation loop of `run` (lines 154-163 of main.go), producing the
artifact as a list of lines: for each record, the deprecated aliases (each a
marker comment plus a declaration), then the record's own declaration. -/
def generate (pkg : GoStr) (errs : List MysqlError) (cs : Constants) : List GoStr :=
  headerLines pkg ++
    errs.flatMap (fun e =>
      (cs.deprecates e.name e.code).flatMap
        (fun d => [deprecatedLine, constLine d.name d.code]) ++
      [constLine e.name e.code])

/-- End-to-end model of `run` minus the I/O glue: scan the input lines, read
the prior artifact when one exists (`none` models a missing
`constants.go`), and produce the new artifact.  An `Except.error` result is
a run that aborts (error return, panic, or hang) and writes no artifact. -/
def runModel (pkg : GoStr) (prior : Option (List GoStr)) (input : List GoStr) :
    Except RunErr (List GoStr) :=
  match processLines initState input with
  | Except.error e => Except.error e
  | Except.ok st =>
    match prior with
    | none => Except.ok (generate pkg st.errs emptyConstants)
    | some plines =>
      match parseConstantsGo plines with
      | none => Except.error RunErr.panicConstTokens
      | some cs => Except.ok (generate pkg st.errs cs)

/-- Generate-then-regenerate: the second run reads the first run's artifact
as its prior artifact. -/
def regen (pkg : GoStr) (input : List GoStr) : Except RunErr (List GoStr) :=
  (runModel pkg none input).bind (fun out => runModel pkg (some out) input)

/-- Whether `pat` occurs as a contiguous run inside `lines`. -/
def linesContain (pat : List GoStr) : List GoStr → Bool
  | [] => List.isPrefixOf pat []
  | l :: ls => List.isPrefixOf pat (l :: ls) || linesContain pat ls

/-- Whether a successful run's artifact contains `pat` as a contiguous
sequence of lines. -/
def outputContains (r : Except RunErr (List GoStr)) (pat : List GoStr) : Bool :=
  match r with
  | Except.ok lines => linesContain pat lines
  | Except.error _ => false

/-! Helper lemmas about the tokenizer primitives. -/

lemma startsWith_iff {s : GoStr} {p : String} :
    startsWith s p = true ↔ ∃ t, p.data ++ t = s := by
  rw [startsWith, List.isPrefixOf_iff_prefix]; exact Iff.rfl

lemma startsWith_append {p : String} (rest : GoStr) :
    startsWith (p.data ++ rest) p = true :=
  startsWith_iff.mpr ⟨rest, rfl⟩

lemma consumeWord_no_delim {w : GoStr} (h : ∀ c ∈ w, isDelim c = false) :
    consumeWord w = (w, []) := by
  induction w with
  | nil => rfl
  | cons c cs ih =>
    have hc : isDelim c = false := h c (List.mem_cons_self c cs)
    simp [consumeWord, hc, ih (fun x hx => h x (List.mem_cons_of_mem c hx))]

lemma consumeWord_word {w : GoStr} {d : Char} (r : GoStr)
    (hw : ∀ c ∈ w, isDelim c = false) (hd : isDelim d = true) :
    consumeWord (w ++ d :: r) = (w, d :: r) := by
  induction w with
  | nil => simp [consumeWord, hd]
  | cons c cs ih =>
    have hc : isDelim c = false := hw c (List.mem_cons_self c cs)
    simp [consumeWord, hc, ih (fun x hx => hw x (List.mem_cons_of_mem c hx))]

lemma trimDelimiters_no_delim {s : GoStr} (h : ∀ c ∈ s, isDelim c = false) :
    trimDelimiters s = s := by
  cases s with
  | nil => rfl
  | cons c cs =>
    have hc : isDelim c = false := h c (List.mem_cons_self c cs)
    have ht : isTrimCh c = false := by
      revert hc; simp [isDelim, isTrimCh]; tauto
    simp [trimDelimiters, ht]

lemma consumeWord_fst_no_delim (s : GoStr) :
    ∀ c ∈ (consumeWord s).1, isDelim c = false := by
  induction s with
  | nil => simp [consumeWord]
  | cons c cs ih =>
    by_cases hc : isDelim c = true
    · simp [consumeWord, hc]
    · rw [Bool.not_eq_true] at hc
      simp only [consumeWord, hc, Bool.false_eq_true, if_false, List.mem_cons]
      rintro x (rfl | hx)
      · exact hc
      · exact ih x hx

/-! Arithmetic of the 64-bit wrap. -/

lemma wrap64_bounds (x : Int) :
    -9223372036854775808 ≤ wrap64 x ∧ wrap64 x < 9223372036854775808 := by
  unfold wrap64; omega

lemma wrap64_eq_self {x : Int} (h1 : -9223372036854775808 ≤ x)
    (h2 : x < 9223372036854775808) : wrap64 x = x := by
  unfold wrap64; omega

lemma wrap64_add_wrap (x y : Int) : wrap64 (x + wrap64 y) = wrap64 (x + y) := by
  unfold wrap64
  congr 1
  rw [show x + ((y + 9223372036854775808) % 18446744073709551616 - 9223372036854775808) +
      9223372036854775808 = x + (y + 9223372036854775808) % 18446744073709551616 by ring]
  rw [Int.add_emod_emod]
  congr 1
  ring

lemma wrap64_wrap_add (x y : Int) : wrap64 (wrap64 x + y) = wrap64 (x + y) := by
  rw [add_comm (wrap64 x), wrap64_add_wrap, add_comm]

lemma wrap64_idem (x : Int) : wrap64 (wrap64 x) = wrap64 x :=
  wrap64_eq_self (wrap64_bounds x).1 (wrap64_bounds x).2

/-- The value `strconv.Atoi` hands back is always a representable 64-bit
`int`: zero on syntax errors, the exact value when it fits, the saturated
bound on range errors. -/
lemma wrap64_atoiOrZero (s : GoStr) : wrap64 (atoiOrZero s) = atoiOrZero s := by
  rcases s with _ | ⟨c, ds⟩
  · decide
  · rw [atoiOrZero]
    have hnn : (0 : Int) ≤ (decVal ds : Int) := Int.ofNat_nonneg _
    have hnn2 : (0 : Int) ≤ (decVal (c :: ds) : Int) := Int.ofNat_nonneg _
    split_ifs <;> exact wrap64_eq_self (by omega) (by omega)

/-! Claim C1: escape-decoder round trips. -/

/-- C1: the claimed round trips fail on the code.  The decoder does decode
`a\nb` to `a`, newline, `b`, but the stop test of the octal loop,
`r[i] < '0' && '7' < r[i]`, is unsatisfiable (first conjunct), so the loop
never stops at a non-octal digit: `\101` followed by the closing quote
consumes the three digits and then the outer `i++` skips the quote, and
`\7x` consumes `7`, `x` and the quote itself as "digits"; both inputs end in
the `unexpected EOL` error instead of the claimed byte values. -/
theorem c1_octal_escape_decoding :
    (∀ c : Char, ¬ (c < '0' ∧ '7' < c)) ∧
    parseQuoted "a\\nb\"".data = some [97, 10, 98] ∧
    parseQuoted "\\101\"".data = none ∧
    parseQuoted "\\7x\"".data = none :=
  ⟨fun _ h => absurd (h.2.trans h.1) (by decide), by decide, by decide, by decide⟩

/-! Claim C10: termination of parseLanguage. -/

/-- C10: `parseLanguage` does not terminate on every line.  A carriage
return is in `consumeWord`'s delimiter set but not in `trimDelimiters`'
cutset, so when the remaining text is `"\r"` one loop iteration consumes
nothing and leaves the state unchanged: the fueled model answers `none` for
every fuel, i.e. the Go loop runs forever on the line `language \r`. -/
theorem c10_parseLanguage_diverges :
    (∀ fuel acc, parseLanguageLoop fuel ['\r'] acc = none) ∧
    parseLanguage "language \r".data = none := by
  have key : ∀ fuel acc, parseLanguageLoop fuel ['\r'] acc = none := by
    intro fuel
    induction fuel with
    | zero => intro acc; rfl
    | succ n ih =>
      intro acc
      exact ih (acc ++ [{ longName := [], shortName := [], charset := [] }])
  exact ⟨key, key 2 []⟩

/-! Claim C5: tolerance of the prior-output reader. -/

/-- C5 counterexample: the prior-output reader is not total.  The line
`const X` begins with the declaration keyword but has only two
space-separated tokens, so `tokens[3]` panics (modelled as `none`) instead
of the line being silently skipped. -/
theorem c5_const_prefix_panics : parseConstantsGo ["const X".data] = none := by decide

/-- C5 amended: a line that does not begin with `const ` is silently
skipped, with no error and no effect on the maps being built; tolerance is
limited to such lines (a malformed line that does begin with `const `
panics, see the counterexample). -/
theorem c5_non_const_skipped (pre post : List GoStr) (l : GoStr)
    (h : startsWith l "const " = false) :
    parseConstantsGo (pre ++ l :: post) = parseConstantsGo (pre ++ post) := by
  have key : ∀ (pre : List GoStr) (c : Constants),
      parseConstantsLoop c (pre ++ l :: post) = parseConstantsLoop c (pre ++ post) := by
    intro pre
    induction pre with
    | nil =>
      intro c
      have hcl : parseConstLine c l = some c := by simp [parseConstLine, h]
      simp [parseConstantsLoop, hcl]
    | cons p ps ih =>
      intro c
      simp only [List.cons_append, parseConstantsLoop]
      cases hp : parseConstLine c p with
      | none => rfl
      | some c2 => exact ih c2
  exact key pre emptyConstants

/-- C5 witness: skipping a non-declaration line between two declarations. -/
theorem c5_non_const_skipped_witness :
    startsWith "junk ~line".data "const " = false ∧
    parseConstantsGo ["const A = 1".data, "junk ~line".data, "const B = 2".data] =
      parseConstantsGo ["const A = 1".data, "const B = 2".data] :=
  ⟨by decide,
   c5_non_const_skipped ["const A = 1".data] ["const B = 2".data] "junk ~line".data
     (by decide)⟩

/-! Claim C6: continuation line before any header. -/

/-- C6 counterexample: a well-formed continuation line arriving before any
header does not produce a format error carrying the line; the run aborts
through the index-out-of-range panic at `errs[len(errs)-1]`, which
surfaces no input line. -/
theorem c6_continuation_panic :
    runModel "mysqlerr".data none [" foo \"x\"".data] =
      Except.error RunErr.panicNoRecord := by decide

/-- C6 amended: for every state with an empty record list, a continuation
line whose language token and quoted literal parse cleanly aborts the run
via the `errs[len(errs)-1]` index panic (carrying no surfaced line) — the
message is not silently dropped, but no format error surfacing the line is
produced either. -/
theorem c6_continuation_no_record (s : ScanState) (l : GoStr) (m : Message)
    (hs : s.errs = [])
    (hsp : startsWith l "\t" = true ∨ startsWith l " " = true)
    (hm : parseContMsg l = Except.ok m) :
    processLine s l = Except.error RunErr.panicNoRecord := by
  rcases hsp with h | h
  · obtain ⟨t, rfl⟩ := startsWith_iff.mp h
    have h1 : startsWith ('\t' :: t) "language" = false := rfl
    have h2 : startsWith ('\t' :: t) "start-error-number" = false := rfl
    have h3 : startsWith ('\t' :: t) "default-language" = false := rfl
    have h4 : startsWith ('\t' :: t) "\t" = true := by
      simp [startsWith, List.isPrefixOf]
    simp only [String.data, List.singleton_append] at hm
    simp [processLine, h1, h2, h3, h4, hm, hs]
  · obtain ⟨t, rfl⟩ := startsWith_iff.mp h
    have h1 : startsWith (' ' :: t) "language" = false := rfl
    have h2 : startsWith (' ' :: t) "start-error-number" = false := rfl
    have h3 : startsWith (' ' :: t) "default-language" = false := rfl
    have h4 : startsWith (' ' :: t) " " = true := by
      simp [startsWith, List.isPrefixOf]
    simp only [String.data, List.singleton_append] at hm
    simp [processLine, h1, h2, h3, h4, hm, hs]

/-! Helper lemmas about processLine and processLines. -/

lemma processLines_append (xs ys : List GoStr) : ∀ (s : ScanState),
    processLines s (xs ++ ys) =
      match processLines s xs with
      | Except.error e => Except.error e
      | Except.ok t => processLines t ys := by
  induction xs with
  | nil => intro s; simp [processLines]
  | cons x xs ih =>
    intro s
    simp only [List.cons_append, processLines]
    cases processLine s x with
    | error e => rfl
    | ok t => exact ih t

/-- Effect of a header line on the scanner state, for any state: a record is
appended whose `name` is the first word, whose `code` is the 64-bit sum
`errorCodeOffset + rCount`, whose states are the next two words, and whose
`obsolete` flag is `strings.HasPrefix(errorName, "OBSOLETE_")`; `rCount`
increments. -/
lemma processLine_header (s : ScanState) (l : GoStr) (hl : isHeaderLine l = true) :
    processLine s l = Except.ok { s with
      rCount := wrap64 (s.rCount + 1),
      errs := s.errs ++ [{ name := (consumeWord l).1,
                           code := wrap64 (s.errorCodeOffset + s.rCount),
                           sqlState := (consumeWord (trimDelimiters (consumeWord l).2)).1,
                           odbcState := (consumeWord (trimDelimiters (consumeWord (trimDelimiters (consumeWord l).2)).2)).1,
                           messages := [],
                           obsolete := startsWith (consumeWord l).1 "OBSOLETE_" }] } := by
  have hcases := hl
  simp only [isHeaderLine, Bool.or_eq_true] at hcases
  rcases hcases with ((h | h) | h) | h
  all_goals obtain ⟨t, rfl⟩ := startsWith_iff.mp h
  · have h1 : startsWith ("ER_".data ++ t) "language" = false := rfl
    have h2 : startsWith ("ER_".data ++ t) "start-error-number" = false := rfl
    have h3 : startsWith ("ER_".data ++ t) "default-language" = false := rfl
    have h4 : startsWith ("ER_".data ++ t) "\t" = false := rfl
    have h5 : startsWith ("ER_".data ++ t) " " = false := rfl
    rw [processLine, h1, h2, h3, h4, h5, hl]; simp
  · have h1 : startsWith ("WARN_".data ++ t) "language" = false := rfl
    have h2 : startsWith ("WARN_".data ++ t) "start-error-number" = false := rfl
    have h3 : startsWith ("WARN_".data ++ t) "default-language" = false := rfl
    have h4 : startsWith ("WARN_".data ++ t) "\t" = false := rfl
    have h5 : startsWith ("WARN_".data ++ t) " " = false := rfl
    rw [processLine, h1, h2, h3, h4, h5, hl]; simp
  · have h1 : startsWith ("OBSOLETE_ER_".data ++ t) "language" = false := rfl
    have h2 : startsWith ("OBSOLETE_ER_".data ++ t) "start-error-number" = false := rfl
    have h3 : startsWith ("OBSOLETE_ER_".data ++ t) "default-language" = false := rfl
    have h4 : startsWith ("OBSOLETE_ER_".data ++ t) "\t" = false := rfl
    have h5 : startsWith ("OBSOLETE_ER_".data ++ t) " " = false := rfl
    rw [processLine, h1, h2, h3, h4, h5, hl]; simp
  · have h1 : startsWith ("OBSOLETE_WARN_".data ++ t) "language" = false := rfl
    have h2 : startsWith ("OBSOLETE_WARN_".data ++ t) "start-error-number" = false := rfl
    have h3 : startsWith ("OBSOLETE_WARN_".data ++ t) "default-language" = false := rfl
    have h4 : startsWith ("OBSOLETE_WARN_".data ++ t) "\t" = false := rfl
    have h5 : startsWith ("OBSOLETE_WARN_".data ++ t) " " = false := rfl
    rw [processLine, h1, h2, h3, h4, h5, hl]; simp

/-- C6 witness: the amended behaviour at a concrete state and line. -/
theorem c6_continuation_no_record_witness :
    initState.errs = [] ∧
    (startsWith "\tfoo \"x\"".data "\t" = true ∨ startsWith "\tfoo \"x\"".data " " = true) ∧
    parseContMsg "\tfoo \"x\"".data =
      Except.ok { langShortName := "foo".data, text := [120] } ∧
    processLine initState "\tfoo \"x\"".data = Except.error RunErr.panicNoRecord :=
  ⟨by decide, Or.inl (by decide), by decide,
   c6_continuation_no_record initState "\tfoo \"x\"".data
     { langShortName := "foo".data, text := [120] } (by decide) (Or.inl (by decide))
     (by decide)⟩

/-! Claim C9: the obsolete flag. -/

/-- C9: every processed header line appends exactly one record, whose name
is the line's first word and whose obsolete flag equals
`strings.HasPrefix(name, "OBSOLETE_")` — so it is true for both the
`OBSOLETE_ER_` and the `OBSOLETE_WARN_` reserved prefixes, determined
solely by the name prefix. -/
theorem c9_obsolete_prefix (s t : ScanState) (l : GoStr)
    (hl : isHeaderLine l = true)
    (h : processLine s l = Except.ok t) :
    ∃ rec, t.errs = s.errs ++ [rec] ∧
      rec.name = (consumeWord l).1 ∧
      rec.obsolete = startsWith rec.name "OBSOLETE_" := by
  rw [processLine_header s l hl] at h
  obtain rfl : _ = t := congrArg (fun r => match r with | Except.ok v => v | _ => s) h
  exact ⟨_, rfl, rfl, rfl⟩

/-- C9 witness: an obsolete-warning header and a plain-error header, the
first with flag true, the second with flag false. -/
theorem c9_obsolete_prefix_witness :
    isHeaderLine "OBSOLETE_WARN_X HY000 S1000".data = true ∧
    isHeaderLine "ER_Y HY000 S1000".data = true ∧
    (∃ rec, ({ initState with
               rCount := 1,
               errs := [{ name := "OBSOLETE_WARN_X".data, code := 1000,
                          sqlState := "HY000".data, odbcState := "S1000".data,
                          messages := [], obsolete := true }] } : ScanState).errs =
        initState.errs ++ [rec] ∧
      rec.name = (consumeWord "OBSOLETE_WARN_X HY000 S1000".data).1 ∧
      rec.obsolete = startsWith rec.name "OBSOLETE_") ∧
    (∃ rec, ({ initState with
               rCount := 1,
               errs := [{ name := "ER_Y".data, code := 1000,
                          sqlState := "HY000".data, odbcState := "S1000".data,
                          messages := [], obsolete := false }] } : ScanState).errs =
        initState.errs ++ [rec] ∧
      rec.name = (consumeWord "ER_Y HY000 S1000".data).1 ∧
      rec.obsolete = startsWith rec.name "OBSOLETE_") :=
  ⟨by decide, by decide,
   c9_obsolete_prefix initState _ "OBSOLETE_WARN_X HY000 S1000".data (by decide) (by decide),
   c9_obsolete_prefix initState _ "ER_Y HY000 S1000".data (by decide) (by decide)⟩

/-! Claim C7: trailing token after the numbering offset. -/

/-- An offset-declaration line with a trailing token is the fatal
`invalid format` error carrying the line, from any state. -/
lemma processLine_offsetDecl_bad (s : ScanState) (l : GoStr)
    (hl : startsWith l "start-error-number" = true)
    (hrest : (consumeWord (trimDelimiters (consumeWord l).2)).2 ≠ []) :
    processLine s l = Except.error (RunErr.invalidFormat l) := by
  obtain ⟨t, rfl⟩ := startsWith_iff.mp hl
  have h1 : startsWith ("start-error-number".data ++ t) "language" = false := rfl
  rw [processLine, h1, hl]
  rw [if_neg (by simp), if_pos rfl]
  dsimp only []
  rw [if_pos hrest]

/-- C7: whenever the scan reaches a numbering-offset declaration line that
still has a token after the integer token, the whole run aborts with the
fatal `invalid format` error carrying that line, and no artifact is
produced. -/
theorem c7_offset_trailing_token_fatal (pkg : GoStr) (prior : Option (List GoStr))
    (pre post : List GoStr) (l : GoStr) (s : ScanState)
    (hpre : processLines initState pre = Except.ok s)
    (hl : startsWith l "start-error-number" = true)
    (hrest : (consumeWord (trimDelimiters (consumeWord l).2)).2 ≠ []) :
    runModel pkg prior (pre ++ l :: post) = Except.error (RunErr.invalidFormat l) ∧
    ∀ out, runModel pkg prior (pre ++ l :: post) ≠ Except.ok out := by
  have hrun : processLines initState (pre ++ l :: post) =
      Except.error (RunErr.invalidFormat l) := by
    rw [processLines_append, hpre]
    simp [processLines, processLine_offsetDecl_bad s l hl hrest]
  refine ⟨by simp [runModel, hrun], fun out => by simp [runModel, hrun]⟩

/-- C7 witness: the spec's own example line `start-error-number 1000 extra`
inside a stream that parses fine up to it. -/
theorem c7_offset_trailing_token_fatal_witness :
    processLines initState ["# header comment".data] = Except.ok initState ∧
    startsWith "start-error-number 1000 extra".data "start-error-number" = true ∧
    (consumeWord (trimDelimiters (consumeWord "start-error-number 1000 extra".data).2)).2 ≠ [] ∧
    runModel "mysqlerr".data none
        ("# header comment".data :: "start-error-number 1000 extra".data :: ["ER_A X Y".data]) =
      Except.error (RunErr.invalidFormat "start-error-number 1000 extra".data) :=
  ⟨by decide, by decide, by decide,
   (c7_offset_trailing_token_fatal "mysqlerr".data none ["# header comment".data]
     ["ER_A X Y".data] "start-error-number 1000 extra".data initState
     (by decide) (by decide) (by decide)).1⟩

/-! Claim C8: unterminated quoted literal on a continuation line. -/

/-- A continuation line is handled entirely by `parseContMsg` followed by
the empty-record-list check, for any state. -/
lemma processLine_cont (s : ScanState) (l : GoStr)
    (hsp : startsWith l "\t" = true ∨ startsWith l " " = true) :
    processLine s l =
      match parseContMsg l with
      | Except.error e => Except.error e
      | Except.ok m =>
        if s.errs = [] then Except.error RunErr.panicNoRecord
        else Except.ok { s with errs := updateLast m s.errs } := by
  rcases hsp with h | h
  · obtain ⟨t, rfl⟩ := startsWith_iff.mp h
    have h1 : startsWith ("\t".data ++ t) "language" = false := rfl
    have h2 : startsWith ("\t".data ++ t) "start-error-number" = false := rfl
    have h3 : startsWith ("\t".data ++ t) "default-language" = false := rfl
    rw [processLine, h1, h2, h3, h]
    rw [if_neg (by simp), if_neg (by simp), if_neg (by simp), if_pos (by simp)]
  · obtain ⟨t, rfl⟩ := startsWith_iff.mp h
    have h1 : startsWith (" ".data ++ t) "language" = false := rfl
    have h2 : startsWith (" ".data ++ t) "start-error-number" = false := rfl
    have h3 : startsWith (" ".data ++ t) "default-language" = false := rfl
    rw [processLine, h1, h2, h3, h]
    rw [if_neg (by simp), if_neg (by simp), if_neg (by simp), if_pos (by simp)]

/-- A continuation line whose quoted literal never closes produces the
wrapped `parse quote(%q): unexpected EOL` error carrying the raw line. -/
lemma parseContMsg_unterminated (l : GoStr)
    (hq : startsWith (afterLang l) "\"" = true)
    (hbad : parseQuoted ((afterLang l).drop 1) = none) :
    parseContMsg l = Except.error (RunErr.parseQuote l) := by
  rw [parseContMsg]
  rw [if_pos hq, hbad]

/-- C8: a message-continuation line whose quoted literal reaches the end of
the line without an unescaped closing quote aborts the whole run with the
fatal `unexpected EOL` error (wrapped as `parse quote(%q)`) that carries the
raw line being decoded, and no artifact is produced. -/
theorem c8_unterminated_literal_fatal (pkg : GoStr) (prior : Option (List GoStr))
    (pre post : List GoStr) (l : GoStr) (s : ScanState)
    (hpre : processLines initState pre = Except.ok s)
    (hsp : startsWith l "\t" = true ∨ startsWith l " " = true)
    (hq : startsWith (afterLang l) "\"" = true)
    (hbad : parseQuoted ((afterLang l).drop 1) = none) :
    runModel pkg prior (pre ++ l :: post) = Except.error (RunErr.parseQuote l) ∧
    ∀ out, runModel pkg prior (pre ++ l :: post) ≠ Except.ok out := by
  have hstep : processLine s l = Except.error (RunErr.parseQuote l) := by
    rw [processLine_cont s l hsp, parseContMsg_unterminated l hq hbad]
  have hrun : processLines initState (pre ++ l :: post) =
      Except.error (RunErr.parseQuote l) := by
    rw [processLines_append, hpre]
    simp [processLines, hstep]
  refine ⟨by simp [runModel, hrun], fun out => by simp [runModel, hrun]⟩

/-- C8 witness: the spec's own example `eng "missing close quote` after a
header line. -/
theorem c8_unterminated_literal_fatal_witness :
    (∃ s, processLines initState ["ER_A X Y".data] = Except.ok s) ∧
    (startsWith "\teng \"missing close quote".data "\t" = true ∨
     startsWith "\teng \"missing close quote".data " " = true) ∧
    startsWith (afterLang "\teng \"missing close quote".data) "\"" = true ∧
    parseQuoted ((afterLang "\teng \"missing close quote".data).drop 1) = none ∧
    runModel "mysqlerr".data none
        ("ER_A X Y".data :: ["\teng \"missing close quote".data]) =
      Except.error (RunErr.parseQuote "\teng \"missing close quote".data) :=
  ⟨⟨_, rfl⟩, Or.inl (by decide), by decide, by decide,
   (c8_unterminated_literal_fatal "mysqlerr".data none ["ER_A X Y".data] []
     "\teng \"missing close quote".data _ rfl (Or.inl (by decide)) (by decide)
     (by decide)).1⟩

/-! Claim C2: sequential code numbering. -/

lemma map_code_updateLast (m : Message) (errs : List MysqlError) :
    (updateLast m errs).map MysqlError.code = errs.map MysqlError.code := by
  induction errs with
  | nil => rfl
  | cons e rest ih =>
    cases rest with
    | nil => rfl
    | cons f rs => simpa [updateLast] using ih

/-- Effect of one successfully processed non-offset-declaration line: the
offset is unchanged; a header line increments `rCount` and appends exactly
the code `errorCodeOffset + rCount`; every other line leaves `rCount` and
the code sequence alone. -/
lemma processLine_effect (s t : ScanState) (l : GoStr)
    (hno : startsWith l "start-error-number" = false)
    (h : processLine s l = Except.ok t) :
    t.errorCodeOffset = s.errorCodeOffset ∧
    (if isHeaderLine l = true
     then t.rCount = wrap64 (s.rCount + 1) ∧
          t.errs.map MysqlError.code =
            s.errs.map MysqlError.code ++ [wrap64 (s.errorCodeOffset + s.rCount)]
     else t.rCount = s.rCount ∧
          t.errs.map MysqlError.code = s.errs.map MysqlError.code) := by
  by_cases hh : isHeaderLine l = true
  · rw [processLine_header s l hh] at h
    obtain rfl : _ = t := congrArg (fun r => match r with | Except.ok v => v | _ => s) h
    simp [hh]
  · rw [if_neg hh]
    rw [Bool.not_eq_true] at hh
    unfold processLine at h
    split at h
    · split at h
      · obtain rfl : _ = t := congrArg (fun r => match r with | Except.ok v => v | _ => s) h
        simp
      · cases h
    · split at h
      · rename_i hc
        rw [hno] at hc; cases hc
      · split at h
        · dsimp only [] at h
          split at h
          · cases h
          · obtain rfl : _ = t := congrArg (fun r => match r with | Except.ok v => v | _ => s) h
            simp
        · split at h
          · split at h
            · cases h
            · split at h
              · cases h
              · obtain rfl : _ = t := congrArg (fun r => match r with | Except.ok v => v | _ => s) h
                simp [map_code_updateLast]
          · split at h
            · rename_i hc
              rw [hh] at hc; cases hc
            · split at h
              · obtain rfl : _ = t := congrArg (fun r => match r with | Except.ok v => v | _ => s) h
                simp
              · split at h
                · obtain rfl : _ = t := congrArg (fun r => match r with | Except.ok v => v | _ => s) h
                  simp
                · cases h

lemma range_map_wrap_add_one (x : Int) (m : Nat) :
    wrap64 x :: (List.range m).map (fun (i : Nat) => wrap64 (x + 1 + (i : Int))) =
      (List.range (m + 1)).map (fun (i : Nat) => wrap64 (x + (i : Int))) := by
  rw [List.range_succ_eq_map, List.map_cons, List.map_map]
  refine congrArg₂ _ (by simp) ?_
  apply List.map_congr_left
  intro i _
  simp only [Function.comp]
  congr 1
  push_cast
  ring

/-- Over any stretch of lines containing no offset redeclaration, the codes
appended to the catalog are the consecutive 64-bit sums
`offset + rCount, offset + rCount + 1, ...` (each wrapped as Go's `int`
addition wraps). -/
lemma processLines_codes (ls : List GoStr) : ∀ (s t : ScanState),
    (∀ l ∈ ls, startsWith l "start-error-number" = false) →
    wrap64 s.rCount = s.rCount →
    processLines s ls = Except.ok t →
    t.errorCodeOffset = s.errorCodeOffset ∧
    t.rCount = wrap64 (s.rCount + ((ls.filter isHeaderLine).length : Int)) ∧
    t.errs.map MysqlError.code = s.errs.map MysqlError.code ++
      (List.range (ls.filter isHeaderLine).length).map
        (fun (i : Nat) => wrap64 (s.errorCodeOffset + s.rCount + (i : Int))) := by
  induction ls with
  | nil =>
    intro s t _ hr h
    obtain rfl : s = t := by
      simpa [processLines] using h
    simpa using hr.symm
  | cons l ls ih =>
    intro s t hno hr h
    simp only [processLines] at h
    cases hl : processLine s l with
    | error e => rw [hl] at h; cases h
    | ok u =>
      rw [hl] at h
      have heff := processLine_effect s u l (hno l (List.mem_cons_self l ls)) hl
      by_cases hh : isHeaderLine l = true
      · rw [if_pos hh] at heff
        obtain ⟨ho, hrc, hc⟩ := heff
        have hru : wrap64 u.rCount = u.rCount := by rw [hrc, wrap64_idem]
        obtain ⟨iho, ihr, ihc⟩ :=
          ih u t (fun x hx => hno x (List.mem_cons_of_mem l hx)) hru h
        have hfil : (l :: ls).filter isHeaderLine = l :: ls.filter isHeaderLine := by
          simp [List.filter_cons, hh]
        refine ⟨by rw [iho, ho], ?_, ?_⟩
        · rw [ihr, hrc, hfil, List.length_cons, wrap64_wrap_add]
          congr 1
          push_cast
          ring
        · rw [ihc, hc, ho, hrc, hfil, List.length_cons, List.append_assoc]
          congr 1
          rw [List.singleton_append, ← range_map_wrap_add_one]
          congr 1
          apply List.map_congr_left
          intro i _
          rw [show s.errorCodeOffset + wrap64 (s.rCount + 1) + (i : Int) =
              s.errorCodeOffset + (i : Int) + wrap64 (s.rCount + 1) by ring]
          rw [wrap64_add_wrap]
          congr 1
          ring
      · rw [if_neg hh] at heff
        obtain ⟨ho, hrc, hc⟩ := heff
        have hru : wrap64 u.rCount = u.rCount := by rw [hrc, hr]
        obtain ⟨iho, ihr, ihc⟩ :=
          ih u t (fun x hx => hno x (List.mem_cons_of_mem l hx)) hru h
        rw [Bool.not_eq_true] at hh
        have hfil : (l :: ls).filter isHeaderLine = ls.filter isHeaderLine := by
          simp [List.filter_cons, hh]
        refine ⟨by rw [iho, ho], by rw [ihr, hrc, hfil], ?_⟩
        rw [ihc, hc, hfil, ho, hrc]

/-- An offset declaration `start-error-number <tok>` (with a delimiter-free
token) sets `errorCodeOffset` to the token's `Atoi` value and resets
`rCount` to zero. -/
lemma processLine_offsetDecl (s : ScanState) (tok : GoStr)
    (ht : ∀ c ∈ tok, isDelim c = false) :
    processLine s ("start-error-number ".data ++ tok) =
      Except.ok { s with errorCodeOffset := atoiOrZero tok, rCount := 0 } := by
  have hd : ("start-error-number ".data : GoStr) = "start-error-number".data ++ [' '] := by decide
  rw [hd, List.append_assoc, List.singleton_append]
  have hl1 : startsWith ("start-error-number".data ++ ' ' :: tok) "language" = false := rfl
  have hl2 : startsWith ("start-error-number".data ++ ' ' :: tok) "start-error-number" = true :=
    startsWith_append _
  rw [processLine, hl1, hl2]
  rw [if_neg (by simp), if_pos rfl]
  dsimp only []
  have hw : consumeWord ("start-error-number".data ++ ' ' :: tok) =
      ("start-error-number".data, ' ' :: tok) :=
    consumeWord_word _ (by decide) (by decide)
  rw [hw]
  have htr : trimDelimiters (' ' :: tok) = tok := by
    have e1 : trimDelimiters (' ' :: tok) = trimDelimiters tok := by
      simp [trimDelimiters, List.dropWhile_cons, isTrimCh]
    rw [e1]
    exact trimDelimiters_no_delim ht
  rw [htr, consumeWord_no_delim ht]
  rw [if_neg (by simp)]

/-- C2 counterexample: the offset token `99999999999999999999` (which the
grammar accepts) does not set the offset to the declared integer: `Atoi`
returns the saturated `MaxInt64` with a discarded range error, so the
header that follows receives code 9223372036854775807, not
99999999999999999999. -/
theorem c2_offset_saturation :
    processLines initState
        ["start-error-number 99999999999999999999".data, "ER_A X Y".data] =
      Except.ok { defaultLanguage := "eng".data,
                  errorCodeOffset := 9223372036854775807, rCount := 1,
                  languages := [],
                  errs := [{ name := "ER_A".data, code := 9223372036854775807,
                             sqlState := "X".data, odbcState := "Y".data,
                             messages := [], obsolete := false }] } ∧
    (9223372036854775807 : Int) ≠ 99999999999999999999 :=
  ⟨by decide, by decide⟩

/-- C2 amended: the offset defaults to 1000 with the running count starting
at 0; a numbering-offset declaration resets the running count to 0 and sets
the offset to `strconv.Atoi`'s value for the token — the declared integer
when it fits a 64-bit `int`, the saturated bound when it does not (the
range error is discarded); and a stretch of lines with no further offset
declaration assigns its header lines the consecutive 64-bit codes
`offset + 0, offset + 1, ...` — the Nth header after the declaration gets
the 64-bit sum `offset + (N - 1)`, and a header immediately after it gets
exactly the new offset value (the offset itself is always representable, so
no wrap occurs at N = 1). -/
theorem c2_sequential_numbering (s s₁ s₂ : ScanState) (tok : GoStr) (ls : List GoStr)
    (ht : ∀ c ∈ tok, isDelim c = false)
    (hdecl : processLine s ("start-error-number ".data ++ tok) = Except.ok s₁)
    (hno : ∀ l ∈ ls, startsWith l "start-error-number" = false)
    (hok : processLines s₁ ls = Except.ok s₂) :
    initState.errorCodeOffset = 1000 ∧ initState.rCount = 0 ∧
    s₁.errorCodeOffset = atoiOrZero tok ∧ s₁.rCount = 0 ∧
    wrap64 (atoiOrZero tok) = atoiOrZero tok ∧
    s₂.errs.map MysqlError.code = s₁.errs.map MysqlError.code ++
      (List.range ((ls.filter isHeaderLine).length)).map
        (fun (i : Nat) => wrap64 (atoiOrZero tok + (i : Int))) := by
  rw [processLine_offsetDecl s tok ht] at hdecl
  obtain rfl : _ = s₁ := congrArg (fun r => match r with | Except.ok v => v | _ => s) hdecl
  obtain ⟨-, -, hc⟩ :=
    processLines_codes ls _ s₂ hno (show wrap64 0 = 0 by decide) hok
  refine ⟨rfl, rfl, rfl, rfl, wrap64_atoiOrZero tok, ?_⟩
  simpa using hc

/-- Concrete post-declaration state for the C2 witness. -/
def c2wS1 : ScanState :=
  { defaultLanguage := "eng".data, errorCodeOffset := 7, rCount := 0,
    languages := [], errs := [] }

/-- Concrete final state for the C2 witness: two headers separated by a
comment, with codes 7 and 8. -/
def c2wS2 : ScanState :=
  { defaultLanguage := "eng".data, errorCodeOffset := 7, rCount := 2,
    languages := [],
    errs := [{ name := "ER_A".data, code := 7, sqlState := "X".data,
               odbcState := "Y".data, messages := [], obsolete := false },
             { name := "ER_B".data, code := 8, sqlState := "X".data,
               odbcState := "Y".data, messages := [], obsolete := false }] }

/-- C2 witness: declaring offset 7 and scanning two headers gives them
codes 7 and 8. -/
theorem c2_sequential_numbering_witness :
    (∀ c ∈ "7".data, isDelim c = false) ∧
    processLine initState ("start-error-number ".data ++ "7".data) = Except.ok c2wS1 ∧
    (∀ l ∈ ["ER_A X Y".data, "# c".data, "ER_B X Y".data],
       startsWith l "start-error-number" = false) ∧
    processLines c2wS1 ["ER_A X Y".data, "# c".data, "ER_B X Y".data] = Except.ok c2wS2 ∧
    (initState.errorCodeOffset = 1000 ∧ initState.rCount = 0 ∧
     c2wS1.errorCodeOffset = atoiOrZero "7".data ∧ c2wS1.rCount = 0 ∧
     wrap64 (atoiOrZero "7".data) = atoiOrZero "7".data ∧
     c2wS2.errs.map MysqlError.code = c2wS1.errs.map MysqlError.code ++
       (List.range (((["ER_A X Y".data, "# c".data, "ER_B X Y".data]).filter
           isHeaderLine).length)).map
         (fun (i : Nat) => wrap64 (atoiOrZero "7".data + (i : Int)))) :=
  ⟨by decide, by decide, by decide, by decide,
   c2_sequential_numbering initState c2wS1 c2wS2 "7".data
     ["ER_A X Y".data, "# c".data, "ER_B X Y".data]
     (by decide) (by decide) (by decide) (by decide)⟩

/-! Claim C3: deprecated aliases precede the canonical declaration. -/

lemma deprecatesLoop_eq_filter (name : GoStr) (code : Int) (ns : List GoStr) :
    deprecatesLoop name code ns = (ns.filter (fun n => n ≠ name)).map
      (fun n => { name := n, code := code, sqlState := [], odbcState := [],
                  messages := [], obsolete := false }) := by
  induction ns with
  | nil => rfl
  | cons n ns ih =>
    by_cases hn : n = name
    · simp [deprecatesLoop, hn, ih]
    · simp [deprecatesLoop, hn, ih, List.filter_cons]

/-- C3: for every catalog and prior map, the artifact consists, record by
record in catalog order, of one deprecated declaration (marker comment plus
`const` line, same code) for each prior name mapped to the record's code
and different from the record's name, in the prior map's first-seen order,
immediately followed by the record's own undeprecated declaration; in
particular the spec's rename scenario (prior `const ER_OLD = 1051`, new
header `ER_NEW` at code 1051) emits `const ER_OLD = 1051` as deprecated
immediately followed by `const ER_NEW = 1051`. -/
theorem c3_deprecated_aliases :
    (∀ (pkg : GoStr) (errs : List MysqlError) (cs : Constants),
      generate pkg errs cs = headerLines pkg ++
        errs.flatMap (fun e =>
          ((cs.codeNames e.code).filter (fun n => n ≠ e.name)).flatMap
            (fun n => [deprecatedLine, constLine n e.code]) ++
          [constLine e.name e.code])) ∧
    outputContains (runModel "mysqlerr".data (some ["const ER_OLD = 1051".data])
        ["start-error-number 1051".data, "ER_NEW 42S01 S1022".data])
      [deprecatedLine, "const ER_OLD = 1051".data, "const ER_NEW = 1051".data] = true := by
  constructor
  · intro pkg errs cs
    unfold generate
    congr 1
    apply List.flatMap_congr
    intro e _
    rw [Constants.deprecates, deprecatesLoop_eq_filter, List.flatMap_map]
  · decide

/-! Claim C4: idempotence of regeneration. -/

lemma digitChar_toNat {d : Nat} (h : d < 10) : (Nat.digitChar d).toNat = 48 + d := by
  interval_cases d <;> rfl

lemma digitChar_isDigit {d : Nat} (h : d < 10) : isDigitCh (Nat.digitChar d) = true := by
  interval_cases d <;> rfl

lemma decVal_append (xs : GoStr) (c : Char) :
    decVal (xs ++ [c]) = decVal xs * 10 + (c.toNat - 48) := by
  simp [decVal, List.foldl_append]

lemma natToDecAux_spec : ∀ fuel n, n < fuel →
    decVal (natToDecAux fuel n) = n ∧ ∀ c ∈ natToDecAux fuel n, isDigitCh c = true := by
  intro fuel
  induction fuel with
  | zero => intro n h; omega
  | succ fuel ih =>
    intro n h
    by_cases h0 : n = 0
    · subst h0
      simp [natToDecAux, decVal]
    · have hdiv : n / 10 < fuel := by
        have h1 : n / 10 < n := Nat.div_lt_self (Nat.pos_of_ne_zero h0) (by norm_num)
        omega
      obtain ⟨ih1, ih2⟩ := ih (n / 10) hdiv
      rw [natToDecAux, if_neg h0]
      constructor
      · rw [decVal_append, ih1, digitChar_toNat (Nat.mod_lt n (by norm_num))]
        omega
      · intro c hc
        rcases List.mem_append.mp hc with hc | hc
        · exact ih2 c hc
        · rw [List.mem_singleton.mp hc]
          exact digitChar_isDigit (Nat.mod_lt n (by norm_num))

lemma decVal_natToDec (n : Nat) : decVal (natToDec n) = n := by
  by_cases h0 : n = 0
  · subst h0; rfl
  · rw [natToDec, if_neg h0]
    exact (natToDecAux_spec (n + 1) n (by omega)).1

lemma natToDec_digits (n : Nat) : ∀ c ∈ natToDec n, isDigitCh c = true := by
  by_cases h0 : n = 0
  · subst h0; decide
  · rw [natToDec, if_neg h0]
    exact (natToDecAux_spec (n + 1) n (by omega)).2

lemma natToDec_ne_nil (n : Nat) : natToDec n ≠ [] := by
  by_cases h0 : n = 0
  · subst h0; decide
  · rw [natToDec, if_neg h0, natToDecAux, if_neg h0]
    simp

lemma isDigitCh_ne (c : Char) (h : isDigitCh c = true) : c ≠ '-' ∧ c ≠ '+' ∧ c ≠ ' ' := by
  refine ⟨fun hc => ?_, fun hc => ?_, fun hc => ?_⟩ <;> (subst hc; revert h; decide)

lemma atoiOrZero_intToDec {k : Int} (hk : wrap64 k = k) :
    atoiOrZero (intToDec k) = k := by
  have hb1 : -9223372036854775808 ≤ k := by rw [← hk]; exact (wrap64_bounds k).1
  have hb2 : k < 9223372036854775808 := by rw [← hk]; exact (wrap64_bounds k).2
  by_cases hkn : k < 0
  · rw [intToDec, if_pos hkn, atoiOrZero]
    rw [if_pos rfl, if_pos ⟨natToDec_ne_nil _, List.all_eq_true.mpr (natToDec_digits _)⟩]
    rw [decVal_natToDec]
    rw [if_neg (by omega)]
    omega
  · rw [intToDec, if_neg hkn]
    cases hnd : natToDec k.toNat with
    | nil => exact absurd hnd (natToDec_ne_nil _)
    | cons c ds =>
      have hcd : isDigitCh c = true := by
        apply natToDec_digits k.toNat
        rw [hnd]; exact List.mem_cons_self c ds
      obtain ⟨hm, hp, -⟩ := isDigitCh_ne c hcd
      rw [atoiOrZero, if_neg hm, if_neg hp]
      have hall : (c :: ds).all isDigitCh = true := by
        rw [← hnd]
        exact List.all_eq_true.mpr (natToDec_digits _)
      rw [if_pos hall, ← hnd, decVal_natToDec]
      rw [if_neg (by omega)]
      omega

lemma goSplit_no_sep {w : GoStr} (h : ∀ c ∈ w, c ≠ ' ') : goSplit w = [w] := by
  induction w with
  | nil => rfl
  | cons c cs ih =>
    have hc : c ≠ ' ' := h c (List.mem_cons_self c cs)
    rw [goSplit, if_neg hc, ih (fun x hx => h x (List.mem_cons_of_mem c hx))]

lemma goSplit_append {w : GoStr} (r : GoStr) (h : ∀ c ∈ w, c ≠ ' ') :
    goSplit (w ++ ' ' :: r) = w :: goSplit r := by
  induction w with
  | nil => simp [goSplit]
  | cons c cs ih =>
    have hc : c ≠ ' ' := h c (List.mem_cons_self c cs)
    rw [List.cons_append, goSplit, if_neg hc,
      ih (fun x hx => h x (List.mem_cons_of_mem c hx))]

lemma intToDec_no_space (k : Int) : ∀ c ∈ intToDec k, c ≠ ' ' := by
  intro c hc
  rw [intToDec] at hc
  split at hc
  · rcases List.mem_cons.mp hc with rfl | hc
    · decide
    · exact (isDigitCh_ne c (natToDec_digits _ c hc)).2.2
  · exact (isDigitCh_ne c (natToDec_digits _ c hc)).2.2

lemma constLine_shape (name : GoStr) (code : Int) :
    constLine name code = "const".data ++ ' ' :: (name ++ ' ' :: '=' :: ' ' :: intToDec code) := by
  rw [constLine]
  have e1 : ("const ".data : GoStr) = "const".data ++ [' '] := by decide
  have e2 : (" = ".data : GoStr) = [' ', '=', ' '] := by decide
  rw [e1, e2]
  simp

lemma parseConstLine_constLine (c : Constants) (name : GoStr) (code : Int)
    (h2 : ∀ ch ∈ name, isDelim ch = false) (hk : wrap64 code = code) :
    parseConstLine c (constLine name code) = some (c.add name code) := by
  have hns : ∀ ch ∈ name, ch ≠ ' ' := by
    intro ch hch hsp
    have := h2 ch hch
    rw [hsp] at this
    exact absurd this (by decide)
  have hpre : startsWith (constLine name code) "const " = true := by
    rw [constLine]
    rw [show ("const ".data ++ name ++ " = ".data ++ intToDec code : GoStr) =
      "const ".data ++ (name ++ " = ".data ++ intToDec code) by simp]
    exact startsWith_append _
  rw [parseConstLine, if_pos hpre, constLine_shape]
  rw [goSplit_append _ (by decide)]
  rw [goSplit_append _ hns]
  rw [show ('=' :: ' ' :: intToDec code : GoStr) = ['='] ++ ' ' :: intToDec code from rfl]
  rw [goSplit_append _ (by decide)]
  rw [goSplit_no_sep (intToDec_no_space code)]
  show some (c.add name (atoiOrZero (intToDec code))) = some (c.add name code)
  rw [atoiOrZero_intToDec hk]

lemma map_name_updateLast (m : Message) (errs : List MysqlError) :
    (updateLast m errs).map MysqlError.name = errs.map MysqlError.name := by
  induction errs with
  | nil => rfl
  | cons e rest ih =>
    cases rest with
    | nil => rfl
    | cons f rs => simpa [updateLast] using ih

lemma isHeaderLine_head_no_delim {l : GoStr} (hl : isHeaderLine l = true) :
    ∃ c t, l = c :: t ∧ isDelim c = false := by
  have hcases := hl
  simp only [isHeaderLine, Bool.or_eq_true] at hcases
  rcases hcases with ((h | h) | h) | h <;> obtain ⟨t, rfl⟩ := startsWith_iff.mp h
  · exact ⟨'E', _, rfl, by decide⟩
  · exact ⟨'W', _, rfl, by decide⟩
  · exact ⟨'O', _, rfl, by decide⟩
  · exact ⟨'O', _, rfl, by decide⟩

/-- Invariant of the record list over one scanner step: every record's name
is a nonempty delimiter-free word (it came out of `consumeWord`), and every
record's code is a representable 64-bit `int` (it came out of the wrapped
addition). -/
lemma processLine_goodNames (s t : ScanState) (l : GoStr)
    (hs : ∀ e ∈ s.errs,
      (e.name ≠ [] ∧ ∀ c ∈ e.name, isDelim c = false) ∧ wrap64 e.code = e.code)
    (h : processLine s l = Except.ok t) :
    ∀ e ∈ t.errs,
      (e.name ≠ [] ∧ ∀ c ∈ e.name, isDelim c = false) ∧ wrap64 e.code = e.code := by
  by_cases hh : isHeaderLine l = true
  · rw [processLine_header s l hh] at h
    obtain rfl : _ = t := congrArg (fun r => match r with | Except.ok v => v | _ => s) h
    intro e he
    rcases List.mem_append.mp he with he | he
    · exact hs e he
    · rw [List.mem_singleton.mp he]
      obtain ⟨c, t2, rfl, hc⟩ := isHeaderLine_head_no_delim hh
      refine ⟨⟨?_, consumeWord_fst_no_delim _⟩, wrap64_idem _⟩
      rw [consumeWord, if_neg (by rw [hc]; exact Bool.false_ne_true)]
      simp
  · rw [Bool.not_eq_true] at hh
    unfold processLine at h
    split at h
    · split at h
      · obtain rfl : _ = t := congrArg (fun r => match r with | Except.ok v => v | _ => s) h
        exact hs
      · cases h
    · split at h
      · dsimp only [] at h
        split at h
        · cases h
        · obtain rfl : _ = t := congrArg (fun r => match r with | Except.ok v => v | _ => s) h
          exact hs
      · split at h
        · dsimp only [] at h
          split at h
          · cases h
          · obtain rfl : _ = t := congrArg (fun r => match r with | Except.ok v => v | _ => s) h
            exact hs
        · split at h
          · split at h
            · cases h
            · split at h
              · cases h
              · obtain rfl : _ = t := congrArg (fun r => match r with | Except.ok v => v | _ => s) h
                intro e he
                have hmemn : e.name ∈ (updateLast _ s.errs).map MysqlError.name :=
                  List.mem_map_of_mem MysqlError.name he
                rw [map_name_updateLast] at hmemn
                obtain ⟨e2, he2, hne⟩ := List.mem_map.mp hmemn
                have hmemc : e.code ∈ (updateLast _ s.errs).map MysqlError.code :=
                  List.mem_map_of_mem MysqlError.code he
                rw [map_code_updateLast] at hmemc
                obtain ⟨e3, he3, hce⟩ := List.mem_map.mp hmemc
                refine ⟨?_, ?_⟩
                · rw [← hne]; exact (hs e2 he2).1
                · rw [← hce]; exact (hs e3 he3).2
          · split at h
            · rename_i hc
              rw [hh] at hc
              cases hc
            · split at h
              · obtain rfl : _ = t := congrArg (fun r => match r with | Except.ok v => v | _ => s) h
                exact hs
              · split at h
                · obtain rfl : _ = t := congrArg (fun r => match r with | Except.ok v => v | _ => s) h
                  exact hs
                · cases h

lemma processLines_goodNames (ls : List GoStr) : ∀ (s t : ScanState),
    (∀ e ∈ s.errs,
      (e.name ≠ [] ∧ ∀ c ∈ e.name, isDelim c = false) ∧ wrap64 e.code = e.code) →
    processLines s ls = Except.ok t →
    ∀ e ∈ t.errs,
      (e.name ≠ [] ∧ ∀ c ∈ e.name, isDelim c = false) ∧ wrap64 e.code = e.code := by
  induction ls with
  | nil =>
    intro s t hs h
    obtain rfl : s = t := by simpa [processLines] using h
    exact hs
  | cons l ls ih =>
    intro s t hs h
    simp only [processLines] at h
    cases hl : processLine s l with
    | error e => rw [hl] at h; cases h
    | ok u =>
      rw [hl] at h
      exact ih u t (processLine_goodNames s u l hs hl) h

def addAll (c : Constants) : List (GoStr × Int) → Constants
  | [] => c
  | (n, v) :: rest => addAll (c.add n v) rest

lemma parseConstantsLoop_skip (ls rest : List GoStr)
    (h : ∀ l ∈ ls, startsWith l "const " = false) :
    ∀ c, parseConstantsLoop c (ls ++ rest) = parseConstantsLoop c rest := by
  induction ls with
  | nil => intro c; rfl
  | cons l ls ih =>
    intro c
    have hcl : parseConstLine c l = some c := by
      simp [parseConstLine, h l (List.mem_cons_self l ls)]
    rw [List.cons_append, parseConstantsLoop]
    rw [hcl]
    exact ih (fun x hx => h x (List.mem_cons_of_mem l hx)) c

lemma headerLines_no_const (pkg : GoStr) :
    ∀ l ∈ headerLines pkg, startsWith l "const " = false := by
  intro l hl
  rw [headerLines] at hl
  rcases List.mem_cons.mp hl with rfl | hl
  · decide
  rcases List.mem_append.mp hl with hl | hl
  · fin_cases hl <;> decide
  · rw [List.mem_singleton.mp hl]
    rfl

lemma parseConstantsLoop_consts (pairs : List (GoStr × Int)) : ∀ c,
    (∀ p ∈ pairs, (∀ ch ∈ p.1, isDelim ch = false) ∧ wrap64 p.2 = p.2) →
    parseConstantsLoop c (pairs.map (fun p => constLine p.1 p.2)) = some (addAll c pairs) := by
  induction pairs with
  | nil => intro c _; rfl
  | cons p ps ih =>
    obtain ⟨n, v⟩ := p
    intro c hgood
    rw [List.map_cons, parseConstantsLoop]
    rw [parseConstLine_constLine c n v (hgood (n, v) (List.mem_cons_self (n, v) ps)).1
      (hgood (n, v) (List.mem_cons_self (n, v) ps)).2]
    show parseConstantsLoop (c.add n v) (ps.map (fun p => constLine p.1 p.2)) =
      some (addAll c ((n, v) :: ps))
    rw [ih (c.add n v) (fun q hq => hgood q (List.mem_cons_of_mem (n, v) hq))]
    rfl

lemma lookup_appendCode (l : List (Int × List GoStr)) (v : Int) (n : GoStr) (code : Int) :
    ((appendCode v n l).lookup code).getD [] =
      if v = code then (l.lookup code).getD [] ++ [n] else (l.lookup code).getD [] := by
  induction l with
  | nil =>
    by_cases hv : v = code
    · subst hv
      simp [appendCode, List.lookup]
    · have hb : (code == v) = false := beq_eq_false_iff_ne.mpr (fun h => hv h.symm)
      simp [appendCode, List.lookup, hb, hv]
  | cons p rest ih =>
    obtain ⟨k, ns⟩ := p
    by_cases hk : k = v
    · subst hk
      rw [appendCode, if_pos rfl]
      by_cases hc : k = code
      · subst hc
        simp [List.lookup]
      · have hb : (code == k) = false := beq_eq_false_iff_ne.mpr (fun h => hc h.symm)
        simp [List.lookup, hb, hc]
    · rw [appendCode, if_neg hk]
      by_cases hc : k = code
      · subst hc
        have hv2 : ¬ v = k := fun he => hk he.symm
        simp [List.lookup, hv2]
      · have hb : (code == k) = false := beq_eq_false_iff_ne.mpr (fun h => hc h.symm)
        simp [List.lookup, hb, ih]

lemma codeNames_add (cs : Constants) (n : GoStr) (v code : Int) :
    (cs.add n v).codeNames code =
      if v = code then cs.codeNames code ++ [n] else cs.codeNames code := by
  rw [Constants.codeNames, Constants.add]
  exact lookup_appendCode cs.byCode v n code

lemma codeNames_addAll (pairs : List (GoStr × Int)) : ∀ (cs : Constants) (code : Int),
    (addAll cs pairs).codeNames code =
      cs.codeNames code ++ (pairs.filter (fun p => p.2 = code)).map Prod.fst := by
  induction pairs with
  | nil => intro cs code; simp [addAll]
  | cons p ps ih =>
    obtain ⟨n, v⟩ := p
    intro cs code
    rw [show addAll cs ((n, v) :: ps) = addAll (cs.add n v) ps from rfl]
    rw [ih, codeNames_add, List.filter_cons]
    by_cases hv : v = code
    · simp [hv]
    · simp [hv]

lemma filter_snd_singleton {pairs : List (GoStr × Int)} (hnd : (pairs.map Prod.snd).Nodup)
    {n : GoStr} {v : Int} (hmem : (n, v) ∈ pairs) :
    pairs.filter (fun p => p.2 = v) = [(n, v)] := by
  induction pairs with
  | nil => cases hmem
  | cons p ps ih =>
    obtain ⟨m, w⟩ := p
    rw [List.map_cons, List.nodup_cons] at hnd
    obtain ⟨hw, hnd2⟩ := hnd
    rcases List.mem_cons.mp hmem with he | hmem2
    · cases he
      have hfe : ps.filter (fun p => p.2 = v) = [] := by
        rw [List.filter_eq_nil_iff]
        intro q hq hq2
        simp only [decide_eq_true_eq] at hq2
        have hv2 : q.2 ∈ ps.map Prod.snd := List.mem_map_of_mem Prod.snd hq
        rw [hq2] at hv2
        exact hw hv2
      simp [List.filter_cons, hfe]
    · have hv2 : v ∈ ps.map Prod.snd := List.mem_map_of_mem Prod.snd hmem2
      have hwv : ¬ w = v := fun he2 => hw (by rw [he2]; exact hv2)
      rw [List.filter_cons]
      simp only [decide_eq_true_eq, hwv, if_false, Bool.false_eq_true]
      exact ih hnd2 hmem2

lemma flatMap_single {A B : Type} (f : A → B) (l : List A) :
    l.flatMap (fun x => [f x]) = l.map f := by
  induction l with
  | nil => rfl
  | cons x xs ih => simp [List.flatMap_cons, ih]

lemma generate_emptyCs (pkg : GoStr) (errs : List MysqlError) :
    generate pkg errs emptyConstants =
      headerLines pkg ++ errs.map (fun e => constLine e.name e.code) := by
  rw [generate]
  congr 1
  have hdep : ∀ e ∈ errs, emptyConstants.deprecates e.name e.code = [] := fun e _ => rfl
  calc errs.flatMap (fun e =>
          (emptyConstants.deprecates e.name e.code).flatMap
            (fun d => [deprecatedLine, constLine d.name d.code]) ++
          [constLine e.name e.code])
      = errs.flatMap (fun e => [constLine e.name e.code]) := by
        apply List.flatMap_congr
        intro e he
        rw [hdep e he]
        rfl
    _ = errs.map (fun e => constLine e.name e.code) := flatMap_single ..

/-- C4 amended: regeneration is idempotent for every input whose records
receive pairwise-distinct numeric codes: scanning input `I` with no prior
artifact and then regenerating from `I` with the produced artifact as the
prior artifact yields the byte-identical line sequence, and (being equal to
the first output) it contains no deprecated aliases.  The distinctness
hypothesis is what the counterexample shows to be necessary. -/
theorem c4_regen_idempotent (pkg : GoStr) (input : List GoStr) (st : ScanState) (out1 : List GoStr)
    (hscan : processLines initState input = Except.ok st)
    (hdist : (st.errs.map MysqlError.code).Nodup)
    (h1 : runModel pkg none input = Except.ok out1) :
    runModel pkg (some out1) input = Except.ok out1 := by
  simp only [runModel, hscan] at h1
  rw [Except.ok.injEq] at h1
  subst h1
  have hnames := processLines_goodNames input initState st (by simp [initState]) hscan
  have hgood : ∀ p ∈ st.errs.map (fun e => (e.name, e.code)),
      (∀ ch ∈ p.1, isDelim ch = false) ∧ wrap64 p.2 = p.2 := by
    intro p hp
    obtain ⟨e, he, rfl⟩ := List.mem_map.mp hp
    exact ⟨(hnames e he).1.2, (hnames e he).2⟩
  have hparse : parseConstantsGo (generate pkg st.errs emptyConstants) =
      some (addAll emptyConstants (st.errs.map (fun e => (e.name, e.code)))) := by
    rw [generate_emptyCs, parseConstantsGo]
    rw [parseConstantsLoop_skip _ _ (headerLines_no_const pkg)]
    have hmm : st.errs.map (fun e => constLine e.name e.code) =
        (st.errs.map (fun e => (e.name, e.code))).map (fun p => constLine p.1 p.2) := by
      rw [List.map_map]; rfl
    rw [hmm, parseConstantsLoop_consts _ emptyConstants hgood]
  have hsnd : (st.errs.map (fun e => (e.name, e.code))).map Prod.snd =
      st.errs.map MysqlError.code := by
    rw [List.map_map]; rfl
  have hdep : ∀ e ∈ st.errs,
      (addAll emptyConstants (st.errs.map (fun e => (e.name, e.code)))).deprecates
        e.name e.code = [] := by
    intro e he
    rw [Constants.deprecates, codeNames_addAll]
    rw [show emptyConstants.codeNames e.code = [] from rfl, List.nil_append]
    have hm : (e.name, e.code) ∈ st.errs.map (fun e => (e.name, e.code)) :=
      List.mem_map_of_mem _ he
    rw [filter_snd_singleton (by rw [hsnd]; exact hdist) hm]
    simp [deprecatesLoop]
  have hgen2 : generate pkg st.errs
        (addAll emptyConstants (st.errs.map (fun e => (e.name, e.code)))) =
      generate pkg st.errs emptyConstants := by
    rw [generate, generate]
    congr 1
    apply List.flatMap_congr
    intro e he
    rw [hdep e he, show emptyConstants.deprecates e.name e.code = [] from rfl]
  simp only [runModel, hscan, hparse]
  rw [hgen2]

set_option maxRecDepth 100000 in
/-- C4 counterexample: with a reused numeric code (offset redeclared to the
same value), regeneration is not idempotent — the second run emits
deprecated aliases for the colliding names, so the outputs differ. -/
theorem c4_regen_not_idempotent :
    regen "mysqlerr".data ["start-error-number 5".data, "ER_A X Y".data,
        "start-error-number 5".data, "ER_B X Y".data] ≠
      runModel "mysqlerr".data none ["start-error-number 5".data, "ER_A X Y".data,
        "start-error-number 5".data, "ER_B X Y".data] := by decide

/-- Concrete input for the C4 witness. -/
def c4wIn : List GoStr :=
  ["start-error-number 3".data, "ER_A X Y".data, "ER_B X Y".data]

/-- Scanner state after the C4 witness input: codes 3 and 4. -/
def c4wSt : ScanState :=
  { defaultLanguage := "eng".data, errorCodeOffset := 3, rCount := 2,
    languages := [],
    errs := [{ name := "ER_A".data, code := 3, sqlState := "X".data,
               odbcState := "Y".data, messages := [], obsolete := false },
             { name := "ER_B".data, code := 4, sqlState := "X".data,
               odbcState := "Y".data, messages := [], obsolete := false }] }

/-- First-generation artifact for the C4 witness. -/
def c4wOut : List GoStr := generate "mysqlerr".data c4wSt.errs emptyConstants

set_option maxRecDepth 100000 in
/-- C4 witness: the amended idempotence at a concrete two-record input. -/
theorem c4_regen_idempotent_witness :
    processLines initState c4wIn = Except.ok c4wSt ∧
    (c4wSt.errs.map MysqlError.code).Nodup ∧
    runModel "mysqlerr".data none c4wIn = Except.ok c4wOut ∧
    runModel "mysqlerr".data (some c4wOut) c4wIn = Except.ok c4wOut :=
  ⟨by decide, by decide, by decide,
   c4_regen_idempotent "mysqlerr".data c4wIn c4wSt c4wOut (by decide) (by decide)
     (by decide)⟩


end Mysqlerr
